import Mathlib

/-!
Verification of the `scicomp-p4-twang` plucked-string synthesizer
(`src/main.rs`) against its natural-language specification.

The synthesizer's floating-point arithmetic is modelled over `ℝ`.
MIDI data bytes (`u8` notes and velocities, the 14-bit `u16` bend
value) are modelled as `ℕ`.  The four `shared()` cells of the
parameter store become a four-field record, and the MIDI callback of
`run_input` becomes a state-transition function on that record.
-/

open Real

namespace Twang

noncomputable section

/-- B string tension in newtons (`static TENSION`, main.rs line 19). -/
def TENSION : ℝ := 48.86

/-- B string linear density in kg/m (`static LINEAR_DENSITY`, main.rs line 20). -/
def LINEAR_DENSITY : ℝ := 0.000477

/-- String length in meters (`static STRING_LENGTH`, main.rs line 21). -/
def STRING_LENGTH : ℝ := 0.64

/-- The fundsp helper `midi_hz` used at main.rs line 154: converts a MIDI
note number to a frequency, `440 * 2^((n - 69) / 12)`. -/
def midi_hz (n : ℝ) : ℝ := 440 * (2 : ℝ) ^ ((n - 69) / 12)

/-- The function `pitch_bend_factor` (main.rs lines 248-250):
`2.0_f64.powf(((bend as f64 - 8192.0) / 8192.0) / 12.0)`. -/
def pitch_bend_factor (bend : ℕ) : ℝ :=
  (2 : ℝ) ^ ((((bend : ℝ) - 8192) / 8192) / 12)

/-- The four `shared()` cells created in `main` (main.rs lines 29-32):
the parameter store connecting the MIDI thread to the audio thread. -/
structure ParamStore where
  pitch : ℝ
  volume : ℝ
  pitch_bend : ℝ
  control : ℝ

/-- Initial values of the four cells (main.rs lines 29-32). -/
def initialStore : ParamStore :=
  { pitch := 0, volume := 0, pitch_bend := 1, control := 0 }

/-- The decoded channel-voice messages of the `midi_msg` crate that the
callback in `run_input` matches on.  `NoteOn`, `NoteOff` and `PitchBend`
are handled; every other variant falls into the wildcard arm `_ => {}`. -/
inductive ChannelVoiceMsg where
  | noteOn (note velocity : ℕ)
  | noteOff (note velocity : ℕ)
  | pitchBend (bend : ℕ)
  | polyPressure (note pressure : ℕ)
  | controlChange (control value : ℕ)
  | programChange (program : ℕ)
  | channelPressure (pressure : ℕ)

/-- The body of the MIDI callback in `run_input` (main.rs lines 152-168),
as a state-transition function on the parameter store:
* `NoteOn` stores `midi_hz note`, `velocity / 127`, `1.0`, `1.0`;
* `NoteOff` stores `control = -1.0` only when the held pitch equals
  `midi_hz note`, and otherwise changes nothing;
* `PitchBend` stores `pitch_bend_factor bend`;
* all other messages do nothing. -/
def run_input_step (msg : ChannelVoiceMsg) (s : ParamStore) : ParamStore :=
  match msg with
  | .noteOn note velocity =>
      { pitch := midi_hz note
        volume := (velocity : ℝ) / 127
        pitch_bend := 1
        control := 1 }
  | .noteOff note _ =>
      if s.pitch = midi_hz note then { s with control := -1 } else s
  | .pitchBend bend => { s with pitch_bend := pitch_bend_factor bend }
  | _ => s

/-- Wave velocity on the string (main.rs line 70):
`sqrt(TENSION / LINEAR_DENSITY)`. -/
def velocity : ℝ := Real.sqrt (TENSION / LINEAR_DENSITY)

/-- Round-trip travel time of the wave, used as the delay-line time in
seconds (main.rs line 71): `2.0 * STRING_LENGTH / velocity`. -/
def waveguide_length : ℝ := 2 * STRING_LENGTH / velocity

/-- Quality factor of the harmonic band-pass filters (main.rs line 89). -/
def harmonic_q : ℝ := 10

/-- Fundamental frequency driving the harmonic bank (main.rs line 90):
`waveguide_length.powi(-1)`. -/
def root_freq_hz : ℝ := waveguide_length ^ (-1 : ℤ)

/-- Feedback gain of the string loop (main.rs line 80): `mul(0.995)`. -/
def feedback_gain : ℝ := 0.995

/-- Length in samples of the fundsp `delay(waveguide_length)` node once
the sample rate is known: the delay time rounded to the nearest sample. -/
def delaySamples (sampleRate : ℝ) : ℕ :=
  (round (waveguide_length * sampleRate)).toNat

/-- Discrete-time semantics of `feedback2(delay(T), mul(g))`
(main.rs line 83), the Karplus-Strong recurrence of §4.4 of the spec:
the delay line holds `N` samples, and each new slot is the excitation
input plus the recirculated delayed output scaled by `g`:
`out n = u (n - N) + g * out (n - N)` for `n ≥ N`, and `0` while the
delay line is still filling.  The degenerate `N = 0` configuration is
cut off to `0` so that the recurrence is well founded. -/
def waveguideOut (N : ℕ) (g : ℝ) (u : ℕ → ℝ) (n : ℕ) : ℝ :=
  if _h : N = 0 ∨ n < N then 0
  else u (n - N) + g * waveguideOut N g u (n - N)
termination_by n
decreasing_by omega

/-- The excitation impulse (main.rs lines 75-77):
`dc(1.0) * var(&volume) * (var(&control) >> adsr_live(T/2, T/2, 0.0, 0.0))`.
The external fundsp envelope `adsr_live` is a parameter `E` taking the
four ADSR durations/levels and the per-sample history of the `control`
cell. -/
def impulseStream (E : ℝ → ℝ → ℝ → ℝ → (ℕ → ℝ) → ℕ → ℝ)
    (volume control : ℕ → ℝ) : ℕ → ℝ :=
  fun n =>
    1.0 * volume n *
      E (waveguide_length / 2) (waveguide_length / 2) 0.0 0.0 control n

/-- The plucked string (main.rs line 86): the impulse fed through the
feedback delay loop.  This is the waveguide's output/excitation tap. -/
def pluckStream (E : ℝ → ℝ → ℝ → ℝ → (ℕ → ℝ) → ℕ → ℝ)
    (sampleRate : ℝ) (volume control : ℕ → ℝ) : ℕ → ℝ :=
  waveguideOut (delaySamples sampleRate) feedback_gain
    (impulseStream E volume control)

/-- The full signal graph assembled by `create_sound`
(main.rs lines 57-106), parameterized over the two external fundsp
primitives it instantiates: `B center q input` models
`input >> bandpass_hz(center, q)` and `E a d s r control` models
`var(&control) >> adsr_live(a, d, s, r)`.  The `pitch` and `pitch_bend`
cells are received (as in the Rust signature) but never read. -/
def soundGraph (B : ℝ → ℝ → (ℕ → ℝ) → ℕ → ℝ)
    (E : ℝ → ℝ → ℝ → ℝ → (ℕ → ℝ) → ℕ → ℝ) (sampleRate : ℝ)
    (pitch volume pitch_bend control : ℕ → ℝ) : ℕ → ℝ :=
  let pluck := pluckStream E sampleRate volume control
  let harmonic_2 := fun n => B (root_freq_hz * 2) harmonic_q pluck n * 1.0
  let harmonic_3 := fun n => B (root_freq_hz * 3) harmonic_q pluck n * 0.5
  let harmonic_4 := fun n => B (root_freq_hz * 4) harmonic_q pluck n * 0.5
  let harmonic_5 := fun n => B (root_freq_hz * 5) harmonic_q pluck n * 0.3
  let harmonic_6 := fun n => B (root_freq_hz * 6) harmonic_q pluck n * 0.2
  fun n =>
    pluck n + harmonic_2 n + harmonic_3 n + harmonic_4 n + harmonic_5 n +
      harmonic_6 n

/-- The function `create_sound` as a construction step.  The Rust function
(main.rs lines 57-106) returns `Box<dyn AudioUnit64>` unconditionally:
it contains no validation, no `Result` and no panic of its own, so the
embedding always returns `Except.ok` of the assembled graph.  The
`Except` codomain records that construction is the place where a
configuration error could be signalled. -/
def create_sound (B : ℝ → ℝ → (ℕ → ℝ) → ℕ → ℝ)
    (E : ℝ → ℝ → ℝ → ℝ → (ℕ → ℝ) → ℕ → ℝ) (sampleRate : ℝ)
    (pitch volume pitch_bend control : ℕ → ℝ) :
    Except String (ℕ → ℝ) :=
  Except.ok (soundGraph B E sampleRate pitch volume pitch_bend control)

/-- Mix weight of each harmonic (main.rs lines 93-97): the constant each
band-pass output is multiplied by. -/
def harmonicWeight : ℕ → ℝ
  | 2 => 1.0
  | 3 => 0.5
  | 4 => 0.5
  | 5 => 0.3
  | 6 => 0.2
  | _ => 0

/-- One frame of `write_data` (main.rs lines 261-267): the inner
`for (channel, sample) in frame.iter_mut().enumerate()` loop writes the
converted left sample to channels with `channel & 1 == 0` and the
converted right sample to the rest.  `conv` models `T::from_sample`. -/
def fill_frame {α : Type} (conv : ℝ → α) (p : ℝ × ℝ) (width : ℕ) :
    List α :=
  (List.range width).map fun channel =>
    if channel &&& 1 = 0 then conv p.1 else conv p.2

/-- The frame loop of `write_data` (main.rs lines 256-268):
`output.chunks_mut(channels)` yields frames of `channels` slots (the
last one possibly shorter), and each frame consumes one stereo pair
from the `next_sample` closure, modelled as the stream of its
successive return values. -/
def write_data_go {α : Type} (conv : ℝ → α) (channels : ℕ)
    (next_sample : ℕ → ℝ × ℝ) (frame len : ℕ) : List α :=
  if _h : channels = 0 ∨ len = 0 then []
  else
    fill_frame conv (next_sample frame) (min channels len) ++
      write_data_go conv channels next_sample (frame + 1) (len - channels)
termination_by len
decreasing_by omega

/-- The function `write_data` (main.rs lines 252-269) on an output buffer of `len`
interleaved slots. -/
def write_data {α : Type} (conv : ℝ → α) (channels : ℕ)
    (next_sample : ℕ → ℝ × ℝ) (len : ℕ) : List α :=
  write_data_go conv channels next_sample 0 len

end

/-! ## Theorems -/

/-- Claim C1: a Note-On event with note `n` and velocity `v` (both MIDI
data bytes, `0..127`) writes exactly the four parameter-store cells:
`pitch = 440 * 2^((n-69)/12)`, `volume = v/127`, `pitch_bend = 1.0` and
`control = 1.0`; moreover the note-to-frequency map sends note 69 to
440 Hz and note 57 to 220 Hz. -/
theorem noteOn_writes_four_cells (n v : ℕ) (hn : n ≤ 127) (hv : v ≤ 127)
    (s : ParamStore) :
    run_input_step (.noteOn n v) s =
      { pitch := 440 * (2 : ℝ) ^ (((n : ℝ) - 69) / 12)
        volume := (v : ℝ) / 127
        pitch_bend := 1
        control := 1 } ∧
    midi_hz 69 = 440 ∧ midi_hz 57 = 220 := by
  refine ⟨rfl, ?_, ?_⟩
  · have h : ((69 : ℝ) - 69) / 12 = 0 := by norm_num
    rw [midi_hz, h, Real.rpow_zero, mul_one]
  · have h : ((57 : ℝ) - 69) / 12 = ((-1 : ℤ) : ℝ) := by norm_num
    rw [midi_hz, h, Real.rpow_intCast, zpow_neg_one]
    norm_num

/-- Witness for C1 at note 69, velocity 127. -/
theorem noteOn_writes_four_cells_witness :
    run_input_step (.noteOn 69 127) initialStore =
      { pitch := 440 * (2 : ℝ) ^ (((69 : ℕ) - 69 : ℝ) / 12)
        volume := ((127 : ℕ) : ℝ) / 127
        pitch_bend := 1
        control := 1 } ∧
    midi_hz 69 = 440 ∧ midi_hz 57 = 220 :=
  noteOn_writes_four_cells 69 127 (by norm_num) (by norm_num) initialStore

/-- The note-to-frequency map is strictly monotone, so distinct notes
give distinct frequencies. -/
theorem midi_hz_strictMono : StrictMono midi_hz := by
  intro a b hab
  have h2 : (1 : ℝ) < 2 := one_lt_two
  have := Real.rpow_lt_rpow_of_exponent_lt h2
    (show (a - 69) / 12 < (b - 69) / 12 by linarith)
  unfold midi_hz
  nlinarith [Real.rpow_pos_of_pos (show (0:ℝ) < 2 by norm_num) ((a - 69) / 12)]

/-- Claim C2: a Note-Off with note `n` sets `control` to `-1.0` exactly
when the store's current `pitch` equals the frequency computed from `n`
(and changes nothing else then); otherwise it is a complete no-op.  In
particular, after NoteOn 69 then NoteOn 72, a NoteOff 69 is a no-op. -/
theorem noteOff_release_guard :
    (∀ (n v : ℕ) (s : ParamStore),
      (s.pitch = midi_hz n →
        run_input_step (.noteOff n v) s = { s with control := -1 }) ∧
      (s.pitch ≠ midi_hz n → run_input_step (.noteOff n v) s = s)) ∧
    ∀ (v1 v2 v3 : ℕ) (s0 : ParamStore),
      run_input_step (.noteOff 69 v3)
          (run_input_step (.noteOn 72 v2) (run_input_step (.noteOn 69 v1) s0)) =
        run_input_step (.noteOn 72 v2) (run_input_step (.noteOn 69 v1) s0) := by
  constructor
  · intro n v s
    constructor
    · intro h
      simp [run_input_step, h]
    · intro h
      simp [run_input_step, h]
  · intro v1 v2 v3 s0
    have hne : midi_hz (72 : ℝ) ≠ midi_hz (69 : ℝ) := by
      have : midi_hz (69 : ℝ) < midi_hz (72 : ℝ) :=
        midi_hz_strictMono (by norm_num)
      exact ne_of_gt this
    simp [run_input_step, hne]

/-- Witness for C2: with held pitch `midi_hz 69` a NoteOff 69 fires the
release. -/
theorem noteOff_release_guard_witness :
    run_input_step (.noteOff 69 0)
        { pitch := midi_hz 69, volume := 1, pitch_bend := 1, control := 1 } =
      { pitch := midi_hz 69, volume := 1, pitch_bend := 1,
        control := (-1 : ℝ) } :=
  (noteOff_release_guard.1 69 0
    { pitch := midi_hz 69, volume := 1, pitch_bend := 1, control := 1 }).1 rfl

/-- Claim C3: the derived waveguide constants equal the physical closed
forms: the wave velocity is `sqrt(tension/density)`, the round-trip
delay time is `2 * length / sqrt(tension/density)`, and the fundamental
frequency fed to the harmonic bank is the reciprocal of the round-trip
time. -/
theorem waveguide_constants_closed_form :
    velocity = Real.sqrt (TENSION / LINEAR_DENSITY) ∧
    waveguide_length = 2 * STRING_LENGTH / Real.sqrt (TENSION / LINEAR_DENSITY) ∧
    root_freq_hz = 1 / waveguide_length := by
  refine ⟨rfl, rfl, ?_⟩
  rw [root_freq_hz, zpow_neg_one, one_div]

/-- The gap between `pitch_bend_factor 16383` and a true semitone
`2^(1/12)` is between `7e-6` and `3e-5`: the maximal 14-bit bend value
reaches exponent `8191/8192` of a semitone, not a full semitone. -/
theorem pbf_gap_bounds :
    (7e-6 : ℝ) ≤ (2 : ℝ) ^ ((1 : ℝ) / 12) - pitch_bend_factor 16383 ∧
    (2 : ℝ) ^ ((1 : ℝ) / 12) - pitch_bend_factor 16383 ≤ 3e-5 := by
  have harg1 : ((((16383 : ℕ) : ℝ) - 8192) / 8192) / 12 = 8191 / 98304 := by
    push_cast
    norm_num
  have e1 : pitch_bend_factor 16383 =
      Real.exp (Real.log 2 * (8191 / 98304)) := by
    rw [pitch_bend_factor, Real.rpow_def_of_pos (by norm_num : (0:ℝ) < 2),
      harg1]
  have harg2 : ((1 : ℝ) / 12) = 8192 / 98304 := by norm_num
  have e2 : (2 : ℝ) ^ ((1 : ℝ) / 12) =
      Real.exp (Real.log 2 * (8192 / 98304)) := by
    rw [Real.rpow_def_of_pos (by norm_num : (0:ℝ) < 2), harg2]
  have hL0 : 0 ≤ Real.log 2 := Real.log_nonneg one_le_two
  have hLgt : (0.6931471803 : ℝ) < Real.log 2 := Real.log_two_gt_d9
  have hLlt : Real.log 2 < 0.6931471808 := Real.log_two_lt_d9
  set t : ℝ := Real.log 2 / 98304 with ht
  have ht0 : 0 ≤ t := by positivity
  have htlb : (0.6931471803 : ℝ) / 98304 < t := by
    rw [ht]; linarith
  have htub : t < (0.6931471808 : ℝ) / 98304 := by
    rw [ht]; linarith
  have hsplit : Real.exp (Real.log 2 * (8192 / 98304)) =
      Real.exp (Real.log 2 * (8191 / 98304)) * Real.exp t := by
    rw [← Real.exp_add]
    congr 1
    rw [ht]; ring
  set A : ℝ := Real.exp (Real.log 2 * (8191 / 98304)) with hA
  set E : ℝ := Real.exp t with hE
  have hA1 : 1 ≤ A := Real.one_le_exp (by positivity)
  have hA2 : A ≤ 2 := by
    have : Real.log 2 * (8191 / 98304) ≤ Real.log 2 :=
      mul_le_of_le_one_right hL0 (by norm_num)
    calc A ≤ Real.exp (Real.log 2) := Real.exp_le_exp.mpr this
    _ = 2 := Real.exp_log (by norm_num)
  have hE1 : t + 1 ≤ E := Real.add_one_le_exp t
  have hE2 : E ≤ 2 := by
    have h1 : t ≤ Real.log 2 := by
      rw [ht]
      nlinarith
    calc E ≤ Real.exp (Real.log 2) := Real.exp_le_exp.mpr h1
    _ = 2 := Real.exp_log (by norm_num)
  have hEub : E * (1 - t) ≤ 1 := by
    have hneg : -t + 1 ≤ Real.exp (-t) := Real.add_one_le_exp (-t)
    rw [Real.exp_neg, ← hE] at hneg
    have hEpos : (0 : ℝ) < E := by rw [hE]; exact Real.exp_pos t
    calc E * (1 - t) ≤ E * E⁻¹ :=
          mul_le_mul_of_nonneg_left (by linarith) (le_of_lt hEpos)
    _ = 1 := mul_inv_cancel₀ (ne_of_gt hEpos)
  rw [e1, e2, hsplit]
  constructor
  · nlinarith [mul_nonneg (sub_nonneg.mpr hA1)
      (by linarith : (0:ℝ) ≤ E - 1)]
  · nlinarith [mul_nonneg (by linarith : (0:ℝ) ≤ 2 - A)
      (by linarith : (0:ℝ) ≤ E - 1),
      mul_nonneg (by linarith : (0:ℝ) ≤ 2 - E) ht0]

/-- Claim C4 counterexample: `pitch_bend_factor 16383` is *not* within
`1e-9` of `2^(1/12)` (the true gap is about `7e-6`). -/
theorem pitch_bend_extreme_misses_1e9 :
    ¬ |pitch_bend_factor 16383 - (2 : ℝ) ^ ((1 : ℝ) / 12)| ≤ 1e-9 := by
  intro hc
  rcases pbf_gap_bounds with ⟨hlb, _⟩
  rw [abs_sub_comm, abs_of_nonneg (by linarith)] at hc
  linarith

/-- Claim C4 (amended): for every 14-bit bend value `b` the Pitch-Bend
handler stores `pitch_bend = 2^(((b - 8192)/8192)/12)`; the factor at
8192 is exactly `1.0`, at 16383 it approximates `2^(1/12)` within
`1e-4` (not `1e-9`), and at 0 it approximates `2^(-1/12)` within
`1e-9`. -/
theorem pitch_bend_factor_spec (b : ℕ) (hb : b ≤ 16383) (s : ParamStore) :
    run_input_step (.pitchBend b) s =
      { s with pitch_bend := (2 : ℝ) ^ ((((b : ℝ) - 8192) / 8192) / 12) } ∧
    pitch_bend_factor 8192 = 1 ∧
    |pitch_bend_factor 16383 - (2 : ℝ) ^ ((1 : ℝ) / 12)| ≤ 1e-4 ∧
    |pitch_bend_factor 0 - (2 : ℝ) ^ (-(1 : ℝ) / 12)| ≤ 1e-9 := by
  refine ⟨rfl, ?_, ?_, ?_⟩
  · have h : ((((8192 : ℕ) : ℝ) - 8192) / 8192) / 12 = 0 := by
      push_cast
      norm_num
    rw [pitch_bend_factor, h, Real.rpow_zero]
  · rcases pbf_gap_bounds with ⟨hlb, hub⟩
    rw [abs_sub_comm, abs_of_nonneg (by linarith)]
    linarith
  · have h : ((((0 : ℕ) : ℝ) - 8192) / 8192) / 12 = -(1 : ℝ) / 12 := by
      push_cast
      norm_num
    rw [pitch_bend_factor, h, sub_self, abs_zero]
    norm_num

/-- Witness for C4 (amended) at the maximal bend value 16383. -/
theorem pitch_bend_factor_spec_witness :
    run_input_step (.pitchBend 16383) initialStore =
      { initialStore with
        pitch_bend := (2 : ℝ) ^ (((((16383 : ℕ) : ℝ) - 8192) / 8192) / 12) } ∧
    pitch_bend_factor 8192 = 1 ∧
    |pitch_bend_factor 16383 - (2 : ℝ) ^ ((1 : ℝ) / 12)| ≤ 1e-4 ∧
    |pitch_bend_factor 0 - (2 : ℝ) ^ (-(1 : ℝ) / 12)| ≤ 1e-9 :=
  pitch_bend_factor_spec 16383 (by norm_num) initialStore

/-- Claim C5: the harmonic bank is exactly five band-pass filters, one
per harmonic index `k ∈ {2,…,6}`, each centered at `k` times the
fundamental `root_freq_hz` with the fixed quality factor `harmonic_q`
and a fixed mix weight, each fed the waveguide's tap `pluckStream`
(not its own output), and the final sound is the pluck plus the
weighted sum over all five filters — for every band-pass implementation
`B` and envelope implementation `E`. -/
theorem harmonic_bank_weighted_sum (B : ℝ → ℝ → (ℕ → ℝ) → ℕ → ℝ)
    (E : ℝ → ℝ → ℝ → ℝ → (ℕ → ℝ) → ℕ → ℝ) (R : ℝ)
    (pitch volume pitch_bend control : ℕ → ℝ) (n : ℕ) :
    (Finset.Icc 2 6).card = 5 ∧
    soundGraph B E R pitch volume pitch_bend control n =
      pluckStream E R volume control n +
        ∑ k in Finset.Icc (2 : ℕ) 6,
          harmonicWeight k *
            B (root_freq_hz * (k : ℝ)) harmonic_q
              (pluckStream E R volume control) n := by
  have hIcc : (Finset.Icc (2 : ℕ) 6) = {2, 3, 4, 5, 6} := by decide
  constructor
  · rw [hIcc]; decide
  · rw [hIcc]
    rw [show ({2, 3, 4, 5, 6} : Finset ℕ) =
        insert 2 (insert 3 (insert 4 (insert 5 {6}))) from rfl]
    rw [Finset.sum_insert (by decide), Finset.sum_insert (by decide),
      Finset.sum_insert (by decide), Finset.sum_insert (by decide),
      Finset.sum_singleton]
    simp only [soundGraph, harmonicWeight]
    push_cast
    ring

/-- Claim C6: with feedback gain `g ∈ (0,1)` and no excitation from
time `n0` on, the waveguide output after `k` round trips (of `N`
samples each) equals the amplitude at `n0` times `g^k`; hence it never
grows and tends to silence. -/
theorem waveguide_geometric_decay (N : ℕ) (hN : 1 ≤ N) (g : ℝ)
    (hg0 : 0 < g) (hg1 : g < 1) (u : ℕ → ℝ) (n0 : ℕ)
    (hu : ∀ m, n0 ≤ m → u m = 0) (k : ℕ) :
    waveguideOut N g u (n0 + k * N) = g ^ k * waveguideOut N g u n0 ∧
    |waveguideOut N g u (n0 + k * N)| ≤ |waveguideOut N g u n0| ∧
    Filter.Tendsto (fun j => waveguideOut N g u (n0 + j * N))
      Filter.atTop (nhds 0) := by
  have hmain : ∀ j, waveguideOut N g u (n0 + j * N) =
      g ^ j * waveguideOut N g u n0 := by
    intro j
    induction j with
    | zero => simp
    | succ j ih =>
      rw [Nat.succ_mul, ← Nat.add_assoc]
      set m := j * N with hm
      have h1 : ¬(N = 0 ∨ n0 + m + N < N) := by omega
      have hstep : waveguideOut N g u (n0 + m + N) =
          u (n0 + m) + g * waveguideOut N g u (n0 + m) := by
        rw [waveguideOut]
        rw [dif_neg h1]
        have h2 : n0 + m + N - N = n0 + m := by omega
        rw [h2]
      rw [hstep, hu (n0 + m) (by omega), ih, pow_succ]
      ring
  refine ⟨hmain k, ?_, ?_⟩
  · rw [hmain k, abs_mul, abs_pow, abs_of_pos hg0]
    have h1 : g ^ k ≤ 1 := pow_le_one₀ (le_of_lt hg0) (le_of_lt hg1)
    nlinarith [abs_nonneg (waveguideOut N g u n0),
      pow_nonneg (le_of_lt hg0) k]
  · have heq : (fun j => waveguideOut N g u (n0 + j * N)) =
        fun j => g ^ j * waveguideOut N g u n0 := funext hmain
    rw [heq]
    have hg : Filter.Tendsto (fun j : ℕ => g ^ j) Filter.atTop (nhds 0) :=
      tendsto_pow_atTop_nhds_zero_of_lt_one (le_of_lt hg0) hg1
    simpa using hg.mul_const (waveguideOut N g u n0)

/-- Witness for C6: one-sample delay line, the reference gain `0.995`,
zero excitation, two round trips. -/
theorem waveguide_geometric_decay_witness :
    waveguideOut 1 0.995 (fun _ => 0) (0 + 2 * 1) =
      0.995 ^ 2 * waveguideOut 1 0.995 (fun _ => 0) 0 ∧
    |waveguideOut 1 0.995 (fun _ => 0) (0 + 2 * 1)| ≤
      |waveguideOut 1 0.995 (fun _ => 0) 0| ∧
    Filter.Tendsto (fun j => waveguideOut 1 0.995 (fun _ => 0) (0 + j * 1))
      Filter.atTop (nhds 0) :=
  waveguide_geometric_decay 1 (by norm_num) 0.995 (by norm_num)
    (by norm_num) (fun _ => 0) 0 (fun _ _ => rfl) 2

/-- Claim C7 counterexample: at sample rate 1 the configured string
yields a zero-length delay line (`delaySamples 1 = 0`), yet
`create_sound` still succeeds — nothing in construction rejects the
degenerate configuration. -/
theorem create_sound_accepts_zero_delay :
    delaySamples 1 = 0 ∧
    create_sound (fun _ _ s => s) (fun _ _ _ _ s => s) 1
        (fun _ => 0) (fun _ => 0) (fun _ => 0) (fun _ => 0) =
      Except.ok (soundGraph (fun _ _ s => s) (fun _ _ _ _ s => s) 1
        (fun _ => 0) (fun _ => 0) (fun _ => 0) (fun _ => 0)) := by
  refine ⟨?_, rfl⟩
  have hv : (2.56 : ℝ) < velocity := by
    rw [velocity]
    rw [Real.lt_sqrt (by norm_num)]
    rw [TENSION, LINEAR_DENSITY]
    norm_num
  have hv0 : (0 : ℝ) < velocity := by linarith
  have hwl0 : 0 ≤ waveguide_length := by
    rw [waveguide_length, STRING_LENGTH]
    positivity
  have hwl : waveguide_length < 1 / 2 := by
    rw [waveguide_length, STRING_LENGTH, div_lt_iff₀ hv0]
    linarith
  have hround : round (waveguide_length * 1) = 0 := by
    rw [mul_one, round_eq_zero_iff, Set.mem_Ico]
    exact ⟨by linarith, hwl⟩
  rw [delaySamples, hround]
  rfl

/-- Claim C7 (amended): `create_sound` never rejects any configuration
— construction always succeeds and yields the total per-sample signal
function, so the render path itself has no failure modes; the
degenerate zero-length delay line is not rejected either. -/
theorem create_sound_total (B : ℝ → ℝ → (ℕ → ℝ) → ℕ → ℝ)
    (E : ℝ → ℝ → ℝ → ℝ → (ℕ → ℝ) → ℕ → ℝ) (R : ℝ)
    (pitch volume pitch_bend control : ℕ → ℝ) :
    ∃ s : ℕ → ℝ,
      create_sound B E R pitch volume pitch_bend control = Except.ok s ∧
      ∀ n, s n = soundGraph B E R pitch volume pitch_bend control n :=
  ⟨soundGraph B E R pitch volume pitch_bend control, rfl, fun _ => rfl⟩

/-- Claim C8: event handling only writes parameter-store cells, and
precisely the documented ones: every message other than NoteOn, NoteOff
and PitchBend leaves the whole store unchanged; NoteOff never changes
`pitch`, `volume` or `pitch_bend`; PitchBend changes only the
`pitch_bend` cell. -/
theorem handler_frame_conditions :
    (∀ (s : ParamStore) (a b : ℕ),
      run_input_step (.polyPressure a b) s = s ∧
      run_input_step (.controlChange a b) s = s ∧
      run_input_step (.programChange a) s = s ∧
      run_input_step (.channelPressure a) s = s) ∧
    (∀ (n v : ℕ) (s : ParamStore),
      (run_input_step (.noteOff n v) s).pitch = s.pitch ∧
      (run_input_step (.noteOff n v) s).volume = s.volume ∧
      (run_input_step (.noteOff n v) s).pitch_bend = s.pitch_bend) ∧
    ∀ (b : ℕ) (s : ParamStore),
      run_input_step (.pitchBend b) s =
        { s with pitch_bend := pitch_bend_factor b } := by
  refine ⟨fun s a b => ⟨rfl, rfl, rfl, rfl⟩, ?_, fun b s => rfl⟩
  intro n v s
  by_cases h : s.pitch = midi_hz n <;> simp [run_input_step, h]

/-- Claim C9: the rendered output never depends on the `pitch` and
`pitch_bend` cells: two runs of the graph whose `volume` and `control`
histories agree produce identical samples whatever the other two cells
hold, for every band-pass and envelope implementation. -/
theorem sound_independent_of_pitch_cells (B : ℝ → ℝ → (ℕ → ℝ) → ℕ → ℝ)
    (E : ℝ → ℝ → ℝ → ℝ → (ℕ → ℝ) → ℕ → ℝ) (R : ℝ)
    (pitch1 pitch_bend1 pitch2 pitch_bend2 : ℕ → ℝ)
    (volume1 control1 volume2 control2 : ℕ → ℝ)
    (hvol : volume1 = volume2) (hctl : control1 = control2) (n : ℕ) :
    soundGraph B E R pitch1 volume1 pitch_bend1 control1 n =
      soundGraph B E R pitch2 volume2 pitch_bend2 control2 n := by
  subst hvol
  subst hctl
  rfl

/-- Witness for C9: concrete runs differing only in `pitch` and
`pitch_bend` histories agree at sample 0. -/
theorem sound_independent_of_pitch_cells_witness :
    soundGraph (fun _ _ s => s) (fun _ _ _ _ s => s) 44100
        (fun _ => 440) (fun _ => 1) (fun _ => 1) (fun _ => 0) 0 =
      soundGraph (fun _ _ s => s) (fun _ _ _ _ s => s) 44100
        (fun _ => 523) (fun _ => 1) (fun _ => 2) (fun _ => 0) 0 :=
  sound_independent_of_pitch_cells (fun _ _ s => s) (fun _ _ _ _ s => s)
    44100 (fun _ => 440) (fun _ => 1) (fun _ => 523) (fun _ => 2)
    (fun _ => 1) (fun _ => 0) (fun _ => 1) (fun _ => 0) rfl rfl 0

/-- Each frame has as many slots as requested. -/
theorem fill_frame_length {α : Type} (conv : ℝ → α) (p : ℝ × ℝ) (w : ℕ) :
    (fill_frame conv p w).length = w := by
  simp [fill_frame]

/-- Within one frame, even channels hold the converted left sample and
odd channels the converted right sample. -/
theorem fill_frame_getD {α : Type} (conv : ℝ → α) (p : ℝ × ℝ) (w i : ℕ)
    (d : α) (h : i < w) :
    (fill_frame conv p w).getD i d =
      if i % 2 = 0 then conv p.1 else conv p.2 := by
  rw [fill_frame]
  have hlen : i < ((List.range w).map fun channel =>
      if channel &&& 1 = 0 then conv p.1 else conv p.2).length := by
    simpa using h
  rw [List.getD_eq_getElem _ _ hlen, List.getElem_map, List.getElem_range,
    Nat.and_one_is_mod]

/-- Index-level description of the `write_data` frame loop: the buffer
keeps its length, and slot `i` belongs to frame `i / c`, channel
`i % c`, receiving the left sample of that frame's pair when the
channel index is even and the right sample when it is odd. -/
theorem write_data_go_spec {α : Type} (conv : ℝ → α) (d : α) (c : ℕ)
    (hc : 1 ≤ c) (samples : ℕ → ℝ × ℝ) :
    ∀ len f,
      (write_data_go conv c samples f len).length = len ∧
      ∀ i, i < len →
        (write_data_go conv c samples f len).getD i d =
          if (i % c) % 2 = 0 then conv (samples (f + i / c)).1
          else conv (samples (f + i / c)).2 := by
  intro len
  induction len using Nat.strong_induction_on with
  | _ len ih =>
    intro f
    by_cases h0 : len = 0
    · subst h0
      constructor
      · rw [write_data_go]
        simp
      · intro i hi
        omega
    · have hcond : ¬(c = 0 ∨ len = 0) := by omega
      have heq : write_data_go conv c samples f len =
          fill_frame conv (samples f) (min c len) ++
            write_data_go conv c samples (f + 1) (len - c) := by
        rw [write_data_go]
        rw [dif_neg hcond]
      obtain ⟨ihlen, ihget⟩ := ih (len - c) (by omega) (f + 1)
      constructor
      · rw [heq, List.length_append, fill_frame_length, ihlen]
        omega
      · intro i hi
        rw [heq]
        by_cases hic : i < c
        · have hia : i < min c len := by omega
          rw [List.getD_append _ _ _ _ (by rw [fill_frame_length]; exact hia)]
          rw [fill_frame_getD _ _ _ _ _ hia]
          rw [Nat.mod_eq_of_lt hic, Nat.div_eq_of_lt hic, Nat.add_zero]
        · obtain ⟨j, rfl⟩ : ∃ j, i = c + j := ⟨i - c, by omega⟩
          have hmin : min c len = c := by omega
          rw [List.getD_append_right _ _ _ _
            (by rw [fill_frame_length, hmin]; omega)]
          rw [fill_frame_length, hmin, Nat.add_sub_cancel_left]
          rw [ihget j (by omega)]
          rw [Nat.add_mod_left, Nat.add_div_left _ (by omega : 0 < c)]
          rw [show f + 1 + j / c = f + (j / c + 1) from by
            rw [Nat.add_assoc, Nat.add_comm 1 (j / c)]]

/-- Claim C10: for channel count `c ≥ 1`, `write_data` fills a buffer
of any length frame by frame, one stereo pair per frame of `c`
interleaved slots, with every even channel slot receiving the left
sample and every odd channel slot the right sample, the pattern
repeating beyond channel 1. -/
theorem write_data_interleaving {α : Type} (conv : ℝ → α) (d : α)
    (c : ℕ) (hc : 1 ≤ c) (samples : ℕ → ℝ × ℝ) (len : ℕ) :
    (write_data conv c samples len).length = len ∧
    ∀ i, i < len →
      (write_data conv c samples len).getD i d =
        if (i % c) % 2 = 0 then conv (samples (i / c)).1
        else conv (samples (i / c)).2 := by
  obtain ⟨h1, h2⟩ := write_data_go_spec conv d c hc samples len 0
  exact ⟨h1, fun i hi => by simpa [write_data] using h2 i hi⟩

/-- Witness for C10: four channels, five slots, distinct left/right
samples. -/
theorem write_data_interleaving_witness :
    (write_data (fun x => x) 4 (fun j => ((j : ℝ), -(j : ℝ))) 5).length = 5 ∧
    ∀ i, i < 5 →
      (write_data (fun x => x) 4 (fun j => ((j : ℝ), -(j : ℝ))) 5).getD i 0 =
        if (i % 4) % 2 = 0 then (((i / 4 : ℕ) : ℝ), -((i / 4 : ℕ) : ℝ)).1
        else (((i / 4 : ℕ) : ℝ), -((i / 4 : ℕ) : ℝ)).2 :=
  write_data_interleaving (fun x => x) 0 4 (by norm_num)
    (fun j => ((j : ℝ), -(j : ℝ))) 5

end Twang
